import Mathlib

/-!
# Verification of the bounded-concurrency execution core

Shallow embedding of the repository's three core modules and proofs of the
specification's claims about them:

* `AsyncGate` (src/02-challenge/async-gate.ts): a bounded semaphore with an
  intrusive FIFO wait list, timeout/abort cancellation, single-use release
  tokens, and a backpressure-aware iterator wrapper.
* `CircuitBreaker` (src/day-5/circuit-breaker.ts): a lazily-evaluated
  CLOSED/OPEN/HALF_OPEN state machine.
* `Retrier` (src/day-4/retrier.ts): bounded retry with exponential backoff,
  jitter, and a retryability predicate.

The gate is modelled as a small-step transition system over an explicit state;
waiters are identified by natural numbers standing for the `WaitNode` objects.
Each step returns the gate state together with the waiter granted during that
step (if any), mirroring which `resolve` callback the code invokes.
-/

namespace AsyncGate

/-- State of an `AsyncGate`: fixed `capacity` (the `concurrency` option),
the `running` counter, and the FIFO wait list (head first), holding the ids of
queued `WaitNode`s.  Mirrors fields `concurrency`, `running`, `head`/`tail`
of class `AsyncGate`. -/
structure GateState where
  capacity : Nat
  running : Nat
  queue : List Nat
deriving Repr, DecidableEq

/-- A freshly constructed gate: `running = 0`, empty wait list. -/
def initGate (c : Nat) : GateState := { capacity := c, running := 0, queue := [] }

/-- Events the gate reacts to, each an atomic turn of the JS event loop:
`acquire id` is a call to `AsyncGate.acquire` by waiter `id`; `release` is an
invocation of an outstanding release function; `cancel id` is the timeout or
abort handler of waiter `id` firing (`onAbort` / the `setTimeout` callback). -/
inductive GEvent where
  | acquire (id : Nat)
  | release
  | cancel (id : Nat)
deriving Repr, DecidableEq

/-- Method `dispatch` (async-gate.ts lines 116-120): if below capacity and the wait
list is nonempty, dequeue the head node, increment `running`, and resolve it. -/
def dispatch (s : GateState) : GateState × Option Nat :=
  if s.capacity ≤ s.running then (s, none)
  else
    match s.queue with
    | [] => (s, none)
    | w :: rest => ({ s with running := s.running + 1, queue := rest }, some w)

/-- One atomic step of the gate.
`acquire`: fast path increments `running` and grants immediately when
`running < concurrency`, otherwise enqueues the node at the tail
(async-gate.ts lines 37, 41).
`release`: decrement `running`, then `dispatch` (lines 111-114).
`cancel`: unlink the node from the wait list (lines 44-59, 133-139);
`running` is untouched. -/
def step (s : GateState) : GEvent → GateState × Option Nat
  | .acquire id =>
    if s.running < s.capacity then ({ s with running := s.running + 1 }, some id)
    else ({ s with queue := s.queue ++ [id] }, none)
  | .release => dispatch { s with running := s.running - 1 }
  | .cancel id => ({ s with queue := s.queue.erase id }, none)

/-- Run a sequence of events, collecting the granted waiter ids in order. -/
def runSteps (s : GateState) : List GEvent → GateState × List Nat
  | [] => (s, [])
  | e :: es =>
    let p := step s e
    let q := runSteps p.1 es
    (q.1, p.2.toList ++ q.2)

theorem step_capacity (s : GateState) (e : GEvent) :
    (step s e).1.capacity = s.capacity := by
  cases e with
  | acquire id =>
    simp only [step]
    split <;> rfl
  | release =>
    simp only [step, dispatch]
    split
    · rfl
    · split <;> rfl
  | cancel id => rfl

theorem dispatch_running_le (s : GateState) (h : s.running ≤ s.capacity) :
    (dispatch s).1.running ≤ (dispatch s).1.capacity := by
  unfold dispatch
  split
  · exact h
  · rename_i hlt
    match hq : s.queue with
    | [] => exact h
    | w :: rest => simpa using Nat.lt_of_not_le hlt

theorem step_running_le (s : GateState) (e : GEvent) (h : s.running ≤ s.capacity) :
    (step s e).1.running ≤ (step s e).1.capacity := by
  cases e with
  | acquire id =>
    simp only [step]
    split
    · rename_i hlt; simpa using hlt
    · simpa using h
  | release =>
    simp only [step]
    exact dispatch_running_le _ (Nat.le_trans (Nat.sub_le _ _) h)
  | cancel id => simpa using h

theorem runSteps_running_le (es : List GEvent) :
    ∀ s : GateState, s.running ≤ s.capacity →
      (runSteps s es).1.running ≤ (runSteps s es).1.capacity := by
  induction es with
  | nil => intro s h; exact h
  | cons e es ih =>
    intro s h
    simpa [runSteps] using ih (step s e).1 (step_running_le s e h)

theorem runSteps_capacity (es : List GEvent) :
    ∀ s : GateState, (runSteps s es).1.capacity = s.capacity := by
  induction es with
  | nil => intro s; rfl
  | cons e es ih =>
    intro s
    simpa [runSteps, ih] using step_capacity s e

/-- Claim C1: for a gate of capacity `C ≥ 1`, after any sequence of acquire, grant,
release and cancellation events starting from the initial state, the running
counter never exceeds the capacity: `running ≤ C`.  (Every prefix of a
sequence is itself a sequence, so this bounds the counter after every
operation.) -/
theorem c1_bounded_admission (C : Nat) (hC : 1 ≤ C) (es : List GEvent) :
    (runSteps (initGate C) es).1.running ≤ C := by
  have h := runSteps_running_le es (initGate C) (by simp [initGate])
  have hc := runSteps_capacity es (initGate C)
  rw [hc] at h
  exact h

/-- Witness for C1 at `C = 2` and a concrete event sequence exercising the
fast path, queueing, release-dispatch and cancellation. -/
theorem c1_bounded_admission_witness :
    1 ≤ 2 ∧
      (runSteps (initGate 2)
        [.acquire 0, .acquire 1, .acquire 2, .acquire 3, .cancel 2,
         .release, .release, .release]).1.running ≤ 2 :=
  ⟨by decide, c1_bounded_admission 2 (by decide)
    [.acquire 0, .acquire 1, .acquire 2, .acquire 3, .cancel 2,
     .release, .release, .release]⟩

/-- Waiter `w1` sits strictly before `w2` in the wait list `q` (head first):
`W1` was enqueued earlier and neither has been dequeued or unlinked. -/
def Before (w1 w2 : Nat) (q : List Nat) : Prop :=
  ∃ l1 l2 l3, q = l1 ++ w1 :: (l2 ++ w2 :: l3)

theorem Before_append (w1 w2 x : Nat) (q : List Nat) (h : Before w1 w2 q) :
    Before w1 w2 (q ++ [x]) := by
  obtain ⟨l1, l2, l3, rfl⟩ := h
  exact ⟨l1, l2, l3 ++ [x], by simp⟩

theorem Before_cons (w1 w2 w : Nat) (rest : List Nat)
    (h : Before w1 w2 (w :: rest)) (hw : w ≠ w1) : Before w1 w2 rest := by
  obtain ⟨l1, l2, l3, hq⟩ := h
  cases l1 with
  | nil =>
    rw [List.nil_append] at hq
    injection hq with h1 h2
    exact absurd h1 hw
  | cons c t =>
    rw [List.cons_append] at hq
    injection hq with h1 h2
    exact ⟨t, l2, l3, h2⟩

theorem Before_head_ne (w1 w2 w : Nat) (rest : List Nat) (hne : w1 ≠ w2)
    (h : Before w1 w2 (w :: rest)) (hc : List.count w2 (w :: rest) = 1) :
    w ≠ w2 := by
  intro heq
  obtain ⟨l1, l2, l3, hq⟩ := h
  cases l1 with
  | nil =>
    rw [List.nil_append] at hq
    injection hq with h1 h2
    exact hne (h1.symm.trans heq)
  | cons c t =>
    rw [List.cons_append] at hq
    injection hq with h1 h2
    have hmem : w2 ∈ rest := by
      rw [h2]
      refine List.mem_append_right t ?_
      simp
    rw [heq, List.count_cons_self] at hc
    have h3 : 0 < List.count w2 rest := List.count_pos_iff.mpr hmem
    omega

theorem Before_erase (w1 w2 a : Nat) (q : List Nat)
    (ha1 : a ≠ w1) (ha2 : a ≠ w2) (h : Before w1 w2 q) :
    Before w1 w2 (q.erase a) := by
  obtain ⟨l1, l2, l3, rfl⟩ := h
  by_cases hm1 : a ∈ l1
  · refine ⟨l1.erase a, l2, l3, ?_⟩
    exact List.erase_append_left _ hm1
  · by_cases hm2 : a ∈ l2
    · refine ⟨l1, l2.erase a, l3, ?_⟩
      rw [List.erase_append_right _ hm1]
      rw [List.erase_cons_tail (by simpa using Ne.symm ha1)]
      exact congrArg (fun t => l1 ++ w1 :: t) (List.erase_append_left _ hm2)
    · refine ⟨l1, l2, l3.erase a, ?_⟩
      rw [List.erase_append_right _ hm1]
      rw [List.erase_cons_tail (by simpa using Ne.symm ha1)]
      rw [List.erase_append_right _ hm2]
      rw [List.erase_cons_tail (by simpa using Ne.symm ha2)]

theorem step_acquire_fast (s : GateState) (id : Nat) (h : s.running < s.capacity) :
    step s (.acquire id) = ({ s with running := s.running + 1 }, some id) := by
  simp [step, h]

theorem step_acquire_slow (s : GateState) (id : Nat) (h : ¬ s.running < s.capacity) :
    step s (.acquire id) = ({ s with queue := s.queue ++ [id] }, none) := by
  simp [step, h]

theorem step_release_atcap (s : GateState) (h : s.capacity ≤ s.running - 1) :
    step s .release = ({ s with running := s.running - 1 }, none) := by
  simp [step, dispatch, h]

theorem step_release_empty (s : GateState) (h : ¬ s.capacity ≤ s.running - 1)
    (hq : s.queue = []) :
    step s .release = ({ s with running := s.running - 1 }, none) := by
  simp [step, dispatch, h, hq]

theorem step_release_grant (s : GateState) (v : Nat) (rest : List Nat)
    (h : ¬ s.capacity ≤ s.running - 1) (hq : s.queue = v :: rest) :
    step s .release = ({ s with running := s.running - 1 + 1, queue := rest }, some v) := by
  simp [step, dispatch, h, hq]

theorem step_cancel_eq (s : GateState) (id : Nat) :
    step s (.cancel id) = ({ s with queue := s.queue.erase id }, none) := rfl

theorem runSteps_cons (s : GateState) (e : GEvent) (es : List GEvent) :
    runSteps s (e :: es)
      = ((runSteps (step s e).1 es).1,
         (step s e).2.toList ++ (runSteps (step s e).1 es).2) := rfl

/-- A waiter that is not in the wait list and never calls `acquire` again is
never granted: grants come either from the fast path (the acquirer itself) or
from `dispatch` dequeuing a queued node. -/
theorem notin_queue_not_granted (w : Nat) :
    ∀ (es : List GEvent) (s : GateState), w ∉ s.queue →
      GEvent.acquire w ∉ es → w ∉ (runSteps s es).2 := by
  intro es
  induction es with
  | nil => intro s _ _ h; simp [runSteps] at h
  | cons e es ih =>
    intro s hq hacq hmem
    have hacqes : GEvent.acquire w ∉ es := fun h => hacq (List.mem_cons_of_mem _ h)
    cases e with
    | acquire id =>
      have hidw : id ≠ w := fun h => hacq (by rw [h]; exact List.mem_cons_self _ _)
      by_cases hfast : s.running < s.capacity
      · rw [runSteps_cons, step_acquire_fast s id hfast] at hmem
        simp only [Option.toList_some, List.singleton_append, List.mem_cons] at hmem
        rcases hmem with h | h
        · exact hidw h.symm
        · exact ih { s with running := s.running + 1 } hq hacqes h
      · rw [runSteps_cons, step_acquire_slow s id hfast] at hmem
        simp only [Option.toList_none, List.nil_append] at hmem
        refine ih { s with queue := s.queue ++ [id] } ?_ hacqes hmem
        show w ∉ s.queue ++ [id]
        simp only [List.mem_append, List.mem_singleton]
        rintro (h | h)
        · exact hq h
        · exact hidw h.symm
    | release =>
      by_cases hcap : s.capacity ≤ s.running - 1
      · rw [runSteps_cons, step_release_atcap s hcap] at hmem
        simp only [Option.toList_none, List.nil_append] at hmem
        exact ih { s with running := s.running - 1 } hq hacqes hmem
      · rcases hqe : s.queue with _ | ⟨v, rest⟩
        · rw [runSteps_cons, step_release_empty s hcap hqe] at hmem
          simp only [Option.toList_none, List.nil_append] at hmem
          exact ih { s with running := s.running - 1 } hq hacqes hmem
        · rw [runSteps_cons, step_release_grant s v rest hcap hqe] at hmem
          simp only [Option.toList_some, List.singleton_append, List.mem_cons] at hmem
          rcases hmem with h | h
          · exact hq (by rw [hqe, ← h]; exact List.mem_cons_self _ _)
          · refine ih { s with running := s.running - 1 + 1, queue := rest } ?_ hacqes h
            show w ∉ rest
            intro hw
            exact hq (by rw [hqe]; exact List.mem_cons_of_mem _ hw)
    | cancel id =>
      rw [runSteps_cons, step_cancel_eq] at hmem
      simp only [Option.toList_none, List.nil_append] at hmem
      exact ih { s with queue := s.queue.erase id }
        (fun h => hq (List.mem_of_mem_erase h)) hacqes hmem

/-- FIFO grant ordering: if `w1` is queued strictly before `w2`, `w2` is
enqueued only once, and the coming events never re-enqueue `w2` nor cancel
`w1`, then whenever `w2` is granted, `w1` was granted strictly earlier: the
grant trace decomposes as `gs1 ++ w1 :: gs2` with `w2 ∉ gs1`. -/
theorem fifo_grant_order (w1 w2 : Nat) (hne : w1 ≠ w2) :
    ∀ (es : List GEvent) (s : GateState),
      Before w1 w2 s.queue → List.count w2 s.queue = 1 →
      GEvent.acquire w2 ∉ es → GEvent.cancel w1 ∉ es →
      w2 ∈ (runSteps s es).2 →
      ∃ gs1 gs2, (runSteps s es).2 = gs1 ++ w1 :: gs2 ∧ w2 ∉ gs1 := by
  intro es
  induction es with
  | nil => intro s _ _ _ _ h; simp [runSteps] at h
  | cons e es ih =>
    intro s hb hc hacq hcan hmem
    have hacqes : GEvent.acquire w2 ∉ es := fun h => hacq (List.mem_cons_of_mem _ h)
    have hcanes : GEvent.cancel w1 ∉ es := fun h => hcan (List.mem_cons_of_mem _ h)
    cases e with
    | acquire id =>
      have hid2 : id ≠ w2 := fun h => hacq (by rw [h]; exact List.mem_cons_self _ _)
      by_cases hfast : s.running < s.capacity
      · rw [runSteps_cons, step_acquire_fast s id hfast] at hmem ⊢
        simp only [Option.toList_some, List.singleton_append] at hmem ⊢
        rw [List.mem_cons] at hmem
        by_cases hid1 : id = w1
        · subst hid1
          exact ⟨[], _, rfl, by simp⟩
        · rcases hmem with h | hmem2
          · exact absurd h.symm hid2
          · obtain ⟨gs1, gs2, hdec, hni⟩ :=
              ih { s with running := s.running + 1 } hb hc hacqes hcanes hmem2
            refine ⟨id :: gs1, gs2, ?_, ?_⟩
            · simp [hdec]
            · simp only [List.mem_cons, not_or]
              exact ⟨fun h => hid2 h.symm, hni⟩
      · rw [runSteps_cons, step_acquire_slow s id hfast] at hmem ⊢
        simp only [Option.toList_none, List.nil_append] at hmem ⊢
        have hz : List.count w2 [id] = 0 := by
          refine List.count_eq_zero.mpr ?_
          simp only [List.mem_singleton]
          exact fun h => hid2 h.symm
        refine ih { s with queue := s.queue ++ [id] } (Before_append _ _ _ _ hb)
          ?_ hacqes hcanes hmem
        show List.count w2 (s.queue ++ [id]) = 1
        rw [List.count_append, hc, hz]
    | release =>
      by_cases hcap : s.capacity ≤ s.running - 1
      · rw [runSteps_cons, step_release_atcap s hcap] at hmem ⊢
        simp only [Option.toList_none, List.nil_append] at hmem ⊢
        exact ih { s with running := s.running - 1 } hb hc hacqes hcanes hmem
      · rcases hqe : s.queue with _ | ⟨v, rest⟩
        · rw [hqe] at hb
          obtain ⟨l1, l2, l3, h⟩ := hb
          simp at h
        · rw [runSteps_cons, step_release_grant s v rest hcap hqe] at hmem ⊢
          rw [hqe] at hb hc
          simp only [Option.toList_some, List.singleton_append] at hmem ⊢
          rw [List.mem_cons] at hmem
          by_cases hv1 : v = w1
          · subst hv1
            exact ⟨[], _, rfl, by simp⟩
          · have hv2 : v ≠ w2 := Before_head_ne w1 w2 v rest hne hb hc
            rcases hmem with h | hmem2
            · exact absurd h.symm hv2
            · have hb2 : Before w1 w2 rest := Before_cons w1 w2 v rest hb hv1
              have hc2 : List.count w2 rest = 1 := by
                rwa [List.count_cons_of_ne (Ne.symm hv2)] at hc
              obtain ⟨gs1, gs2, hdec, hni⟩ :=
                ih { s with running := s.running - 1 + 1, queue := rest } hb2 hc2 hacqes hcanes hmem2
              refine ⟨v :: gs1, gs2, ?_, ?_⟩
              · simp [hdec]
              · simp only [List.mem_cons, not_or]
                exact ⟨fun h => hv2 h.symm, hni⟩
    | cancel id =>
      have hid1 : id ≠ w1 := fun h => hcan (by rw [h]; exact List.mem_cons_self _ _)
      rw [runSteps_cons, step_cancel_eq] at hmem ⊢
      simp only [Option.toList_none, List.nil_append] at hmem ⊢
      by_cases hid2 : id = w2
      · have hzero : List.count w2 (s.queue.erase id) = 0 := by
          rw [hid2, List.count_erase_self, hc]
        have hnq : w2 ∉ s.queue.erase id := List.count_eq_zero.mp hzero
        exact absurd hmem (notin_queue_not_granted w2 es
          { s with queue := s.queue.erase id } hnq hacqes)
      · refine ih { s with queue := s.queue.erase id }
          (Before_erase _ _ _ _ hid1 hid2 hb) ?_ hacqes hcanes hmem
        show List.count w2 (s.queue.erase id) = 1
        rw [List.count_erase_of_ne (fun h => hid2 h.symm), hc]

/-- Claim C2: waiters enqueued on a full gate are served in strict FIFO order.
If `W1` was enqueued before `W2` (`Before w1 w2 s.queue`), `W2` sits in the
list exactly once, and the remaining events neither re-enqueue `W2` nor
cancel `W1`, then if `W2` is eventually granted, `W1` was granted strictly
earlier in the grant trace — so `W1` is granted no later than `W2`. -/
theorem c2_fifo_fairness (w1 w2 : Nat) (s : GateState) (es : List GEvent)
    (hne : w1 ≠ w2) (hb : Before w1 w2 s.queue)
    (hc : List.count w2 s.queue = 1)
    (hacq : GEvent.acquire w2 ∉ es) (hcan : GEvent.cancel w1 ∉ es)
    (hmem : w2 ∈ (runSteps s es).2) :
    ∃ gs1 gs2, (runSteps s es).2 = gs1 ++ w1 :: gs2 ∧ w2 ∉ gs1 :=
  fifo_grant_order w1 w2 hne es s hb hc hacq hcan hmem

/-- Witness for C2: capacity-1 gate with waiters 5 then 7 queued; two releases
grant 5 first, then 7. -/
theorem c2_fifo_fairness_witness :
    ∃ gs1 gs2,
      (runSteps ⟨1, 1, [5, 7]⟩ [GEvent.release, GEvent.release]).2
        = gs1 ++ 5 :: gs2 ∧ 7 ∉ gs1 :=
  c2_fifo_fairness 5 7 ⟨1, 1, [5, 7]⟩ [GEvent.release, GEvent.release]
    (by decide) ⟨[], [], [], rfl⟩ (by decide) (by decide) (by decide) (by decide)

/-- Claim C6: the timeout / abort handler (`cancel`) unlinks the node and
leaves `running` untouched.  The theorem packages the claim: a waiter `id`
that queued on a full gate (`capacity ≤ running`, so `acquire` took the slow
path) and then failed with `TimeoutError` / `AbortError` leaves `running`
exactly as it was before its `acquire` call, was never granted, and is no
longer linked in the wait list. -/
theorem c6_timeout_non_effect (s : GateState) (id : Nat)
    (hfull : s.capacity ≤ s.running) (hfresh : id ∉ s.queue) :
    (step s (.acquire id)).2 = none ∧
    (step (step s (.acquire id)).1 (.cancel id)).1.running = s.running ∧
    id ∉ (step (step s (.acquire id)).1 (.cancel id)).1.queue := by
  have hnl : ¬ s.running < s.capacity := Nat.not_lt.mpr hfull
  refine ⟨by simp [step, if_neg hnl], by simp [step, if_neg hnl], ?_⟩
  simp only [step, if_neg hnl]
  rw [List.erase_append_right _ hfresh, List.erase_cons_head]
  simpa using hfresh

/-- Witness for C6: full capacity-1 gate, waiter 9 queues then times out. -/
theorem c6_timeout_non_effect_witness :
    2 ≤ 2 ∧ (9 : Nat) ∉ ([4] : List Nat) ∧
      ((step (⟨2, 2, [4]⟩ : GateState) (.acquire 9)).2 = none ∧
       (step (step (⟨2, 2, [4]⟩ : GateState) (.acquire 9)).1 (.cancel 9)).1.running = 2 ∧
       9 ∉ (step (step (⟨2, 2, [4]⟩ : GateState) (.acquire 9)).1 (.cancel 9)).1.queue) :=
  ⟨by decide, by decide, c6_timeout_non_effect ⟨2, 2, [4]⟩ 9 (by decide) (by decide)⟩

/-- Result of invoking a release token (`createRelease`, async-gate.ts lines
109-115): the closure state `released`, the possible error, the gate state
after the call, and the waiter granted by the triggered `dispatch` (if any). -/
structure ReleaseResult where
  error : Option String
  released : Bool
  gate : GateState
  granted : Option Nat
deriving Repr, DecidableEq

/-- Invoke a release token whose closure flag is `released` on gate `s`:
if already released, throw `Release called twice` leaving the gate untouched;
otherwise set the flag, decrement `running`, and `dispatch`. -/
def invokeRelease (released : Bool) (s : GateState) : ReleaseResult :=
  if released then ⟨some "Release called twice", released, s, none⟩
  else
    let p := dispatch { s with running := s.running - 1 }
    ⟨none, true, p.1, p.2⟩

/-- Claim C9: a release token succeeds on its first invocation (flag was `false`;
the flag becomes `true`), and any invocation with the flag already `true`
deterministically throws `Release called twice`, leaves the flag `true`, does
not change the gate state (so `running` is not decremented) and dispatches no
waiter. -/
theorem c9_double_release (s t : GateState) :
    (invokeRelease false s).error = none ∧
    (invokeRelease false s).released = true ∧
    (invokeRelease true t).error = some "Release called twice" ∧
    (invokeRelease true t).released = true ∧
    (invokeRelease true t).gate = t ∧
    (invokeRelease true t).granted = none := by
  refine ⟨rfl, rfl, rfl, rfl, rfl, rfl⟩

/-! ### Backpressure iterator (`AsyncGate.wrap`, async-gate.ts lines 78-107) -/

/-- Result of one upstream pull (`iter.next()`): resolves with an element,
resolves done, or rejects. -/
inductive SrcResult where
  | value
  | stop
  | err
deriving Repr, DecidableEq

/-- What the last consumer operation on the wrapped iterator did (ghost
instrumentation used to phrase the accounting claim). -/
inductive WOutcome where
  | initial
  | gotValue
  | exhausted
  | raised
  | closed
  | drained
deriving Repr, DecidableEq

/-- State of a `wrap(source)` iterator plus ghost acquire/release counters:
`src` the remaining upstream pull results, `pending` whether `pendingRelease`
is non-null, `done` the `done` flag. -/
structure WrapState where
  src : List SrcResult
  pending : Bool
  done : Bool
  acquires : Nat
  releases : Nat
  outcome : WOutcome
deriving Repr, DecidableEq

/-- Consumer operations on the wrapped iterator: `next()`, `return()`,
`throw()`. -/
inductive WOp where
  | next
  | ret
  | thr
deriving Repr, DecidableEq

/-- Helper `releasePending` (async-gate.ts line 82): if a release is pending, invoke
it and clear the slot. -/
def releasePendingFn (s : WrapState) : WrapState :=
  if s.pending then { s with pending := false, releases := s.releases + 1 } else s

/-- One consumer operation on the wrapped iterator (async-gate.ts lines
85-104).  `next`: release the pending slot, return if `done`, acquire a
slot, pull; on a value keep the slot pending; on exhaustion release it
immediately and set `done`; on an upstream error release it and rethrow
(`done` stays false).  `return`/`throw`: release the pending slot and set
`done`. -/
def wrapStep (s : WrapState) : WOp → WrapState
  | .next =>
    let s1 := releasePendingFn s
    if s1.done then { s1 with outcome := .drained }
    else
      let s2 := { s1 with acquires := s1.acquires + 1 }
      match s2.src with
      | [] => { s2 with done := true, releases := s2.releases + 1, outcome := .exhausted }
      | r :: rest =>
        match r with
        | .value => { s2 with src := rest, pending := true, outcome := .gotValue }
        | .stop =>
          { s2 with src := rest, done := true, releases := s2.releases + 1,
                    outcome := .exhausted }
        | .err =>
          { s2 with src := rest, releases := s2.releases + 1, outcome := .raised }
  | .ret =>
    let s1 := releasePendingFn s
    { s1 with done := true, outcome := .closed }
  | .thr =>
    let s1 := releasePendingFn s
    { s1 with done := true, outcome := .closed }

/-- A freshly wrapped iterator over upstream `src`. -/
def initWrap (src : List SrcResult) : WrapState :=
  ⟨src, false, false, 0, 0, .initial⟩

/-- Run a sequence of consumer operations. -/
def runWrap (s : WrapState) : List WOp → WrapState
  | [] => s
  | op :: ops => runWrap (wrapStep s op) ops

/-- Slot-accounting invariant of the wrapped iterator: the number of acquires
exceeds the number of releases by exactly one slot when a release is pending,
and a release is pending only right after a successful value pull. -/
def WrapInv (s : WrapState) : Prop :=
  s.acquires = s.releases + (if s.pending then 1 else 0) ∧
  (s.pending = true → s.outcome = .gotValue)

theorem releasePendingFn_inv (s : WrapState) (h : WrapInv s) :
    (releasePendingFn s).acquires = (releasePendingFn s).releases ∧
    (releasePendingFn s).pending = false := by
  obtain ⟨h1, _⟩ := h
  unfold releasePendingFn
  by_cases hp : s.pending
  · rw [if_pos hp] at h1 ⊢
    refine ⟨?_, rfl⟩
    simpa using h1
  · rw [if_neg hp] at h1 ⊢
    refine ⟨?_, ?_⟩
    · simpa using h1
    · simpa using hp

theorem wrapStep_inv (s : WrapState) (op : WOp) (h : WrapInv s) :
    WrapInv (wrapStep s op) := by
  obtain ⟨hacc, hpend⟩ := releasePendingFn_inv s h
  cases op with
  | next =>
    show WrapInv (wrapStep s .next)
    unfold wrapStep
    by_cases hd : (releasePendingFn s).done
    · simp only [if_pos hd]
      exact ⟨by simp [hpend, hacc], by simp [hpend]⟩
    · simp only [if_neg hd]
      rcases hsrc : (releasePendingFn s).src with _ | ⟨r, rest⟩
      · exact ⟨by simp [hpend, hacc], by simp [hpend]⟩
      · cases r with
        | value => exact ⟨by simp [hacc], by simp⟩
        | stop => exact ⟨by simp [hpend, hacc], by simp [hpend]⟩
        | err => exact ⟨by simp [hpend, hacc], by simp [hpend]⟩
  | ret => exact ⟨by simp [wrapStep, hpend, hacc], by simp [wrapStep, hpend]⟩
  | thr => exact ⟨by simp [wrapStep, hpend, hacc], by simp [wrapStep, hpend]⟩

theorem runWrap_inv (ops : List WOp) :
    ∀ s : WrapState, WrapInv s → WrapInv (runWrap s ops) := by
  induction ops with
  | nil => intro s h; exact h
  | cons op ops ih =>
    intro s h
    exact ih (wrapStep s op) (wrapStep_inv s op h)

/-- Claim C5: for a wrapped iterator, across any sequence of consumer operations
whose last operation ended the iteration — the source reported exhaustion
(`exhausted`), an upstream pull threw (`raised`), or the consumer called
`return()`/`throw()` (`closed`) — the number of `gate.acquire` calls equals
the number of release invocations, so no slot stays held; in particular the
slot acquired for the pull that reported exhaustion was released in that same
operation. -/
theorem c5_iterator_slot_accounting (src : List SrcResult) (ops : List WOp)
    (hend : (runWrap (initWrap src) ops).outcome = .exhausted ∨
            (runWrap (initWrap src) ops).outcome = .raised ∨
            (runWrap (initWrap src) ops).outcome = .closed) :
    (runWrap (initWrap src) ops).acquires = (runWrap (initWrap src) ops).releases := by
  have hinv : WrapInv (runWrap (initWrap src) ops) :=
    runWrap_inv ops (initWrap src) (by constructor <;> simp [initWrap])
  have hnp : (runWrap (initWrap src) ops).pending = false := by
    rcases hp : (runWrap (initWrap src) ops).pending with _ | _
    · rfl
    · have := hinv.2 hp
      rcases hend with h | h | h <;> rw [this] at h <;> exact absurd h (by decide)
  have := hinv.1
  rw [hnp] at this
  simpa using this

/-- Witness for C5: a two-element source fully consumed; the third `next()`
hits exhaustion; two acquires, two releases. -/
theorem c5_iterator_slot_accounting_witness :
    ((runWrap (initWrap [SrcResult.value, SrcResult.stop])
        [WOp.next, WOp.next]).outcome = WOutcome.exhausted ∨
     (runWrap (initWrap [SrcResult.value, SrcResult.stop])
        [WOp.next, WOp.next]).outcome = WOutcome.raised ∨
     (runWrap (initWrap [SrcResult.value, SrcResult.stop])
        [WOp.next, WOp.next]).outcome = WOutcome.closed) ∧
    (runWrap (initWrap [SrcResult.value, SrcResult.stop])
        [WOp.next, WOp.next]).acquires =
      (runWrap (initWrap [SrcResult.value, SrcResult.stop])
        [WOp.next, WOp.next]).releases :=
  ⟨by decide, c5_iterator_slot_accounting [SrcResult.value, SrcResult.stop]
    [WOp.next, WOp.next] (by decide)⟩

end AsyncGate

namespace CircuitBreaker

/-- The three circuit states (`CircuitState` in circuit-breaker.ts):
`CLOSED`, `OPEN`, `HALF_OPEN`. -/
inductive CircuitState where
  | closed
  | opened
  | halfOpen
deriving Repr, DecidableEq

/-- Breaker configuration (`CircuitBreakerOptions` after defaulting):
`failureThreshold`, `resetTimeout` (ms), `successThreshold`.  The
`isFailure` predicate is modelled at each failure event by the boolean
`counts` it returns. -/
structure CBConfig where
  failureThreshold : Nat
  resetTimeout : Nat
  successThreshold : Nat
deriving Repr, DecidableEq

/-- Mutable breaker state (fields `_state`, `failures`, `successes`,
`lastFailureAt`, `lastStateChange`, `totalRejections`).  Timestamps
(`Date.now()`) are naturals passed explicitly to each operation.
`probeInFlight` is omitted: operations are modelled as atomic event-loop
turns, and the flag is set and cleared inside a single `run`, so it is
`false` at every state the model observes. -/
structure CBState where
  state : CircuitState
  failures : Nat
  successes : Nat
  lastFailureAt : Option Nat
  lastStateChange : Nat
  totalRejections : Nat
deriving Repr, DecidableEq

/-- A freshly constructed breaker at time `now`. -/
def initCB (now : Nat) : CBState :=
  ⟨.closed, 0, 0, none, now, 0⟩

/-- Method `transitionTo` (circuit-breaker.ts lines 214-218): no-op when the state
is unchanged, otherwise set `_state` and stamp `lastStateChange`. -/
def transitionTo (s : CBState) (st : CircuitState) (now : Nat) : CBState :=
  if s.state = st then s else { s with state := st, lastStateChange := now }

/-- Method `shouldAttemptReset` (lines 209-212): false when no failure was ever
recorded, else true once `resetTimeout` has elapsed since the last failure. -/
def shouldAttemptReset (cfg : CBConfig) (s : CBState) (now : Nat) : Bool :=
  match s.lastFailureAt with
  | none => false
  | some t => decide (t + cfg.resetTimeout ≤ now)

/-- The `state` getter (lines 88-94): lazily turns `OPEN` into `HALF_OPEN`
when the reset timeout has elapsed; returns the (possibly updated) state. -/
def readState (cfg : CBConfig) (s : CBState) (now : Nat) : CBState :=
  if s.state = .opened then
    if shouldAttemptReset cfg s now then transitionTo s .halfOpen now else s
  else s

/-- Method `onSuccess` (lines 174-187). -/
def onSuccess (cfg : CBConfig) (s : CBState) (now : Nat) : CBState :=
  match s.state with
  | .closed => { s with failures := 0, successes := s.successes + 1 }
  | .halfOpen =>
    if cfg.successThreshold ≤ s.successes + 1 then
      { transitionTo { s with successes := s.successes + 1 } .closed now with
          failures := 0, successes := 0 }
    else { s with successes := s.successes + 1 }
  | .opened => s

/-- Method `onFailure` (lines 189-207); `counts` is the value of
`isFailure(error)`. -/
def onFailure (cfg : CBConfig) (s : CBState) (counts : Bool) (now : Nat) : CBState :=
  if counts then
    let s1 := { s with lastFailureAt := some now }
    match s1.state with
    | .closed =>
      if cfg.failureThreshold ≤ s1.failures + 1 then
        transitionTo { s1 with failures := s1.failures + 1 } .opened now
      else { s1 with failures := s1.failures + 1 }
    | .halfOpen => { transitionTo s1 .opened now with successes := 0 }
    | .opened => s1
  else s

/-- Method `forceState` (lines 164-170): force the state; a forced `CLOSED` also
clears the counters. -/
def forceState (s : CBState) (st : CircuitState) (now : Nat) : CBState :=
  let s1 := transitionTo s st now
  if st = .closed then { s1 with failures := 0, successes := 0 } else s1

/-- Micro-events through which breaker state evolves outside `forceState`:
a read of the `state` getter, a successful probe/call completion
(`onSuccess`), or a failed one (`onFailure` with the `isFailure` verdict). -/
inductive CBEvent where
  | read (now : Nat)
  | success (now : Nat)
  | failure (counts : Bool) (now : Nat)
deriving Repr, DecidableEq

def cbStep (cfg : CBConfig) (s : CBState) : CBEvent → CBState
  | .read now => readState cfg s now
  | .success now => onSuccess cfg s now
  | .failure c now => onFailure cfg s c now

/-- Claim C3: outside `forceState`, every state change of the breaker is one of
the four specified transitions: CLOSED→OPEN on a qualifying failure reaching
`failureThreshold`; OPEN→HALF_OPEN on a state read once `resetTimeout` has
elapsed (lazy evaluation — only `read` events make this transition);
HALF_OPEN→CLOSED on a probe success reaching `successThreshold`;
HALF_OPEN→OPEN on any qualifying probe failure.  Any other event leaves the
state unchanged. -/
theorem c3_state_transitions (cfg : CBConfig) (s : CBState) (e : CBEvent) :
    (cbStep cfg s e).state = s.state
    ∨ (s.state = .closed ∧ (cbStep cfg s e).state = .opened ∧
        ∃ now, e = .failure true now ∧ cfg.failureThreshold ≤ s.failures + 1)
    ∨ (s.state = .opened ∧ (cbStep cfg s e).state = .halfOpen ∧
        ∃ now, e = .read now ∧ shouldAttemptReset cfg s now = true)
    ∨ (s.state = .halfOpen ∧ (cbStep cfg s e).state = .closed ∧
        ∃ now, e = .success now ∧ cfg.successThreshold ≤ s.successes + 1)
    ∨ (s.state = .halfOpen ∧ (cbStep cfg s e).state = .opened ∧
        ∃ now, e = .failure true now) := by
  cases e with
  | read now =>
    by_cases hop : s.state = .opened
    · by_cases hr : shouldAttemptReset cfg s now = true
      · refine Or.inr (Or.inr (Or.inl ⟨hop, ?_, now, rfl, hr⟩))
        simp [cbStep, readState, hop, hr, transitionTo]
      · exact Or.inl (by simp [cbStep, readState, hop, hr])
    · exact Or.inl (by simp [cbStep, readState, hop])
  | success now =>
    rcases hst : s.state with _ | _ | _
    · exact Or.inl (by simp [cbStep, onSuccess, hst])
    · exact Or.inl (by simp [cbStep, onSuccess, hst])
    · by_cases hth : cfg.successThreshold ≤ s.successes + 1
      · refine Or.inr (Or.inr (Or.inr (Or.inl ⟨rfl, ?_, now, rfl, hth⟩)))
        simp [cbStep, onSuccess, hst, hth, transitionTo]
      · exact Or.inl (by simp [cbStep, onSuccess, hst, hth])
  | failure c now =>
    rcases hc : c with _ | _
    · exact Or.inl (by simp [cbStep, onFailure])
    · rcases hst : s.state with _ | _ | _
      · by_cases hth : cfg.failureThreshold ≤ s.failures + 1
        · refine Or.inr (Or.inl ⟨rfl, ?_, now, rfl, hth⟩)
          simp [cbStep, onFailure, hst, hth, transitionTo]
        · exact Or.inl (by simp [cbStep, onFailure, hst, hth])
      · exact Or.inl (by simp [cbStep, onFailure, hst])
      · refine Or.inr (Or.inr (Or.inr (Or.inr ⟨rfl, ?_, now, rfl⟩)))
        simp [cbStep, onFailure, hst, transitionTo]

/-- Outcome of the wrapped function `fn` for one `run` call: it resolves
(`ok`), or it rejects and `isFailure(error)` returns `counts` (`bad`). -/
inductive FnOutcome where
  | ok
  | bad (counts : Bool)
deriving Repr, DecidableEq

/-- Observable result of `CircuitBreaker.run`: a `CircuitOpenError` with its
`state`, `nextAttemptAt` and `failures` fields (the breaker rejected the call
without invoking `fn`), or completion of `fn` itself (resolved or rethrown). -/
inductive RunResult where
  | rejected (state : CircuitState) (nextAttemptAt : Nat) (failures : Nat)
  | completed (succeeded : Bool)
deriving Repr, DecidableEq

/-- Method `CircuitBreaker.run` (circuit-breaker.ts lines 104-144) as one atomic
turn: read the state (which may lazily transition OPEN to HALF_OPEN); when it
reads OPEN, bump `totalRejections` and throw
`CircuitOpenError(state, lastFailureAt + resetTimeout, failures)` without
invoking `fn`; otherwise run `fn` and record the outcome.  In JS
`this.lastFailureAt! + this.resetTimeout` coerces a `null` `lastFailureAt`
to `0`, hence `getD 0`. -/
def cbRun (cfg : CBConfig) (s : CBState) (fo : FnOutcome) (now : Nat) :
    CBState × RunResult :=
  let s1 := readState cfg s now
  if s1.state = .opened then
    ({ s1 with totalRejections := s1.totalRejections + 1 },
      .rejected s1.state (s1.lastFailureAt.getD 0 + cfg.resetTimeout) s1.failures)
  else
    match fo with
    | .ok => (onSuccess cfg s1 now, .completed true)
    | .bad c => (onFailure cfg s1 c now, .completed false)

theorem readState_opened_eq (cfg : CBConfig) (s : CBState) (now : Nat)
    (h : (readState cfg s now).state = CircuitState.opened) :
    readState cfg s now = s := by
  unfold readState at h ⊢
  by_cases hop : s.state = CircuitState.opened
  · by_cases hr : shouldAttemptReset cfg s now = true
    · rw [if_pos hop, if_pos hr] at h ⊢
      unfold transitionTo at h
      rw [hop] at h
      rw [if_neg (by decide)] at h
      simp at h
    · rw [if_pos hop, if_neg hr]
  · rw [if_neg hop]

/-- Claim C4: whenever `run(fn)` is invoked while the breaker reads OPEN, it fails
with `CircuitOpenError` carrying state OPEN,
`nextAttemptAt = lastFailureAt + resetTimeout` and the current failure count;
`totalRejections` is incremented and no other counter or field changes; and
the result is independent of `fn`, i.e. `fn` is never invoked (no downstream
resource such as a gate slot can be touched). -/
theorem c4_open_fast_fail (cfg : CBConfig) (s : CBState) (now : Nat) (fo : FnOutcome)
    (hopen : (readState cfg s now).state = CircuitState.opened) :
    (cbRun cfg s fo now).2
      = RunResult.rejected .opened (s.lastFailureAt.getD 0 + cfg.resetTimeout) s.failures ∧
    (cbRun cfg s fo now).1.totalRejections = s.totalRejections + 1 ∧
    (cbRun cfg s fo now).1.failures = s.failures ∧
    (cbRun cfg s fo now).1.successes = s.successes ∧
    (cbRun cfg s fo now).1.lastFailureAt = s.lastFailureAt ∧
    (cbRun cfg s fo now).1.state = CircuitState.opened ∧
    (∀ fo2, cbRun cfg s fo2 now = cbRun cfg s fo now) := by
  have hs1 : readState cfg s now = s := readState_opened_eq cfg s now hopen
  have hso : s.state = CircuitState.opened := by rw [← hs1]; exact hopen
  refine ⟨?_, ?_, ?_, ?_, ?_, ?_, ?_⟩
  · simp [cbRun, hs1, hso]
  · simp [cbRun, hs1, hso]
  · simp [cbRun, hs1, hso]
  · simp [cbRun, hs1, hso]
  · simp [cbRun, hs1, hso]
  · simp [cbRun, hs1, hso]
  · intro fo2
    simp [cbRun, hs1, hso]

/-- Witness for C4: `failureThreshold = 3`, breaker opened by three
qualifying failures (last at t=30), `run` attempted at t=60 with
`resetTimeout = 100`. -/
theorem c4_open_fast_fail_witness :
    (readState ⟨3, 100, 1⟩ ⟨CircuitState.opened, 3, 0, some 30, 30, 0⟩ 60).state
        = CircuitState.opened ∧
    ((cbRun ⟨3, 100, 1⟩ ⟨CircuitState.opened, 3, 0, some 30, 30, 0⟩ FnOutcome.ok 60).2
        = RunResult.rejected .opened 130 3 ∧
      (cbRun ⟨3, 100, 1⟩ ⟨CircuitState.opened, 3, 0, some 30, 30, 0⟩ FnOutcome.ok 60).1.totalRejections = 0 + 1 ∧
      (cbRun ⟨3, 100, 1⟩ ⟨CircuitState.opened, 3, 0, some 30, 30, 0⟩ FnOutcome.ok 60).1.failures = 3 ∧
      (cbRun ⟨3, 100, 1⟩ ⟨CircuitState.opened, 3, 0, some 30, 30, 0⟩ FnOutcome.ok 60).1.successes = 0 ∧
      (cbRun ⟨3, 100, 1⟩ ⟨CircuitState.opened, 3, 0, some 30, 30, 0⟩ FnOutcome.ok 60).1.lastFailureAt = some 30 ∧
      (cbRun ⟨3, 100, 1⟩ ⟨CircuitState.opened, 3, 0, some 30, 30, 0⟩ FnOutcome.ok 60).1.state = CircuitState.opened ∧
      (∀ fo2, cbRun ⟨3, 100, 1⟩ ⟨CircuitState.opened, 3, 0, some 30, 30, 0⟩ fo2 60
        = cbRun ⟨3, 100, 1⟩ ⟨CircuitState.opened, 3, 0, some 30, 30, 0⟩ FnOutcome.ok 60)) :=
  ⟨by decide,
    c4_open_fast_fail ⟨3, 100, 1⟩ ⟨CircuitState.opened, 3, 0, some 30, 30, 0⟩ 60
      FnOutcome.ok (by decide)⟩

/-- Operations observable between event-loop turns, for the C10 trace:
reads of the `state` getter and whole `run` calls. -/
inductive CBOp where
  | readOp (now : Nat)
  | runOp (fo : FnOutcome) (now : Nat)
deriving Repr, DecidableEq

def cbOpStep (cfg : CBConfig) (s : CBState) : CBOp → CBState
  | .readOp now => readState cfg s now
  | .runOp fo now => (cbRun cfg s fo now).1

def cbOpsRun (cfg : CBConfig) (s : CBState) : List CBOp → CBState
  | [] => s
  | op :: ops => cbOpsRun cfg (cbOpStep cfg s op) ops

theorem cb_open_nofail_step (cfg : CBConfig) (s : CBState) (op : CBOp)
    (h1 : s.state = CircuitState.opened) (h2 : s.lastFailureAt = none) :
    (cbOpStep cfg s op).state = CircuitState.opened ∧
    (cbOpStep cfg s op).lastFailureAt = none := by
  have hrs : ∀ now, readState cfg s now = s := by
    intro now
    unfold readState
    rw [if_pos h1]
    have : shouldAttemptReset cfg s now = false := by
      unfold shouldAttemptReset
      rw [h2]
    rw [this]
    simp
  cases op with
  | readOp now =>
    show (readState cfg s now).state = _ ∧ (readState cfg s now).lastFailureAt = _
    rw [hrs now]
    exact ⟨h1, h2⟩
  | runOp fo now =>
    show ((cbRun cfg s fo now).1).state = _ ∧ ((cbRun cfg s fo now).1).lastFailureAt = _
    unfold cbRun
    rw [hrs now]
    rw [if_pos h1]
    exact ⟨h1, h2⟩

theorem cb_open_nofail_run (cfg : CBConfig) (ops : List CBOp) :
    ∀ s : CBState, s.state = CircuitState.opened → s.lastFailureAt = none →
      (cbOpsRun cfg s ops).state = CircuitState.opened ∧
      (cbOpsRun cfg s ops).lastFailureAt = none := by
  induction ops with
  | nil => intro s h1 h2; exact ⟨h1, h2⟩
  | cons op ops ih =>
    intro s h1 h2
    obtain ⟨h1s, h2s⟩ := cb_open_nofail_step cfg s op h1 h2
    exact ih (cbOpStep cfg s op) h1s h2s

theorem forceState_opened (s : CBState) (t : Nat) :
    (forceState s .opened t).state = CircuitState.opened ∧
    (forceState s .opened t).lastFailureAt = s.lastFailureAt := by
  unfold forceState transitionTo
  by_cases h : s.state = CircuitState.opened
  · rw [if_pos h]
    rw [if_neg (by decide)]
    exact ⟨h, rfl⟩
  · rw [if_neg h]
    rw [if_neg (by decide)]
    exact ⟨rfl, rfl⟩

/-- Claim C10: after `forceState("OPEN")` on a breaker that never recorded a
qualifying failure (`lastFailureAt = null`), `shouldAttemptReset` is always
false, so across any sequence of state reads and `run` calls at arbitrary
times the breaker stays OPEN with `lastFailureAt` still null, and every
further `run` call is rejected with a `CircuitOpenError` (whose
`nextAttemptAt` is `0 + resetTimeout`, `null` coercing to `0`). -/
theorem c10_forced_open_never_resets (cfg : CBConfig) (s0 : CBState) (t0 : Nat)
    (ops : List CBOp) (hlf : s0.lastFailureAt = none) :
    (cbOpsRun cfg (forceState s0 .opened t0) ops).state = CircuitState.opened ∧
    (cbOpsRun cfg (forceState s0 .opened t0) ops).lastFailureAt = none ∧
    ∀ fo now,
      (cbRun cfg (cbOpsRun cfg (forceState s0 .opened t0) ops) fo now).2
        = RunResult.rejected .opened (cfg.resetTimeout)
            (cbOpsRun cfg (forceState s0 .opened t0) ops).failures := by
  obtain ⟨hf1, hf2⟩ := forceState_opened s0 t0
  rw [hlf] at hf2
  obtain ⟨h1, h2⟩ := cb_open_nofail_run cfg ops (forceState s0 .opened t0) hf1 hf2
  refine ⟨h1, h2, ?_⟩
  intro fo now
  have hrs : readState cfg (cbOpsRun cfg (forceState s0 .opened t0) ops) now
      = cbOpsRun cfg (forceState s0 .opened t0) ops := by
    unfold readState
    rw [if_pos h1]
    have : shouldAttemptReset cfg (cbOpsRun cfg (forceState s0 .opened t0) ops) now
        = false := by
      unfold shouldAttemptReset
      rw [h2]
    rw [this]
    simp
  unfold cbRun
  rw [hrs, if_pos h1, h1, h2]
  simp

/-- Witness for C10: breaker constructed at t=0, forced OPEN at t=5, then a
state read and a run attempt far in the future; it still reads OPEN and
rejects. -/
theorem c10_forced_open_never_resets_witness :
    (initCB 0).lastFailureAt = none ∧
    ((cbOpsRun ⟨3, 100, 1⟩ (forceState (initCB 0) .opened 5)
        [CBOp.readOp 1000000, CBOp.runOp FnOutcome.ok 2000000]).state
          = CircuitState.opened ∧
      (cbRun ⟨3, 100, 1⟩
        (cbOpsRun ⟨3, 100, 1⟩ (forceState (initCB 0) .opened 5)
          [CBOp.readOp 1000000, CBOp.runOp FnOutcome.ok 2000000])
        FnOutcome.ok 3000000).2
        = RunResult.rejected .opened 100
            (cbOpsRun ⟨3, 100, 1⟩ (forceState (initCB 0) .opened 5)
              [CBOp.readOp 1000000, CBOp.runOp FnOutcome.ok 2000000]).failures) :=
  ⟨by decide,
    (c10_forced_open_never_resets ⟨3, 100, 1⟩ (initCB 0) 5
      [CBOp.readOp 1000000, CBOp.runOp FnOutcome.ok 2000000] (by decide)).1,
    (c10_forced_open_never_resets ⟨3, 100, 1⟩ (initCB 0) 5
      [CBOp.readOp 1000000, CBOp.runOp FnOutcome.ok 2000000] (by decide)).2.2
      FnOutcome.ok 3000000⟩


end CircuitBreaker

namespace Retrier

/-- Function `calculateDelay` (retrier.ts lines 77-94) over exact rationals:
exponential backoff `baseDelay * 2^(attempt-1)` capped at `maxDelay`, a
jitter perturbation `(Math.random()*2 - 1) * (capped * jitter)` with the
random draw `r ∈ [0,1)` passed explicitly, `Math.round` modelled as
`⌊x + 1/2⌋`, and `Math.max(0, ·)`. -/
def calculateDelay (attempt : Nat) (baseDelay maxDelay jitter r : ℚ) : ℤ :=
  let exponential := baseDelay * 2 ^ (attempt - 1)
  let capped := min exponential maxDelay
  let jitterRange := capped * jitter
  let jitterValue := (r * 2 - 1) * jitterRange
  max 0 ⌊capped + jitterValue + 1/2⌋

/-- Core rounding estimate: a value `capped ≥ 0` perturbed by at most
`jitter * capped` and rounded half-up stays within `jitter * capped + 1/2`
of `capped`, and is nonnegative. -/
theorem delay_round_core (capped jitter r : ℚ) (hc : 0 ≤ capped)
    (hj0 : 0 ≤ jitter) (hj1 : jitter ≤ 1) (hr0 : 0 ≤ r) (hr1 : r ≤ 1) :
    0 ≤ max 0 ⌊capped + (r * 2 - 1) * (capped * jitter) + 1/2⌋ ∧
    |((max 0 ⌊capped + (r * 2 - 1) * (capped * jitter) + 1/2⌋ : ℤ) : ℚ) - capped|
      ≤ jitter * capped + 1/2 := by
  have e2 : (0:ℚ) ≤ capped * jitter := mul_nonneg hc hj0
  have habs : |(r * 2 - 1) * (capped * jitter)| ≤ jitter * capped := by
    have e1 : |r * 2 - 1| ≤ 1 := abs_le.mpr ⟨by linarith, by linarith⟩
    calc |(r * 2 - 1) * (capped * jitter)|
        = |r * 2 - 1| * |capped * jitter| := abs_mul _ _
      _ = |r * 2 - 1| * (capped * jitter) := by rw [abs_of_nonneg e2]
      _ ≤ 1 * (capped * jitter) := mul_le_mul_of_nonneg_right e1 e2
      _ = jitter * capped := by ring
  obtain ⟨hge, hle⟩ := abs_le.mp habs
  have hjc : jitter * capped ≤ capped := by nlinarith
  have hx0 : (0:ℚ) ≤ capped + (r * 2 - 1) * (capped * jitter) + 1/2 := by linarith
  have hfl0 : (0:ℤ) ≤ ⌊capped + (r * 2 - 1) * (capped * jitter) + 1/2⌋ := by
    rw [Int.le_floor]
    exact_mod_cast hx0
  refine ⟨le_max_left 0 _, ?_⟩
  rw [max_eq_right hfl0]
  have h1 : ((⌊capped + (r * 2 - 1) * (capped * jitter) + 1/2⌋ : ℤ) : ℚ)
      ≤ capped + (r * 2 - 1) * (capped * jitter) + 1/2 := Int.floor_le _
  have h2 : capped + (r * 2 - 1) * (capped * jitter) + 1/2 - 1
      < ((⌊capped + (r * 2 - 1) * (capped * jitter) + 1/2⌋ : ℤ) : ℚ) :=
    Int.sub_one_lt_floor _
  rw [abs_le]
  constructor <;> linarith

/-- Counterexample to claim C7 as stated: with `attempt = 1`,
`baseDelay = 1`, `maxDelay = 10`, `jitter = 3/5` and random draw
`r = 999/1000`, the computed delay is `2`, but the claimed bound
`|delay - capped| ≤ jitter * capped` demands `|2 - 1| ≤ 3/5` — false.
`Math.round` can push the delay beyond the pure `±jitter` band. -/
theorem c7_counterexample :
    calculateDelay 1 1 10 (3/5) (999/1000) = 2 ∧
    ¬ |((calculateDelay 1 1 10 (3/5) (999/1000) : ℤ) : ℚ)
          - min ((1:ℚ) * 2 ^ (1 - 1)) 10|
        ≤ (3/5) * min ((1:ℚ) * 2 ^ (1 - 1)) 10 := by
  have hmin : min ((1:ℚ) * 2 ^ (1 - 1)) 10 = 1 := by norm_num
  have h1 : calculateDelay 1 1 10 (3/5) (999/1000) = 2 := by
    show max 0 ⌊min ((1:ℚ) * 2 ^ (1 - 1)) 10
        + (999/1000 * 2 - 1) * (min ((1:ℚ) * 2 ^ (1 - 1)) 10 * (3/5)) + 1/2⌋ = 2
    rw [hmin]
    have hfl : ⌊(1:ℚ) + (999/1000 * 2 - 1) * (1 * (3/5)) + 1/2⌋ = 2 := by
      rw [Int.floor_eq_iff]
      constructor <;> norm_num
    rw [hfl]
    rfl
  refine ⟨h1, ?_⟩
  rw [h1, hmin]
  norm_num

/-- Claim C7 as amended: for attempt `n ≥ 1` the delay is
`min(baseDelay * 2^(n-1), maxDelay)` perturbed by at most `±jitter` fraction
of that capped value plus `1/2` from rounding to the nearest integer, and
floored at zero; and with `jitter = 0` and integer nonnegative `baseDelay`
and `maxDelay` the delay is exactly `min(baseDelay * 2^(n-1), maxDelay)`. -/
theorem c7_backoff_delay (attempt : Nat) (baseDelay maxDelay jitter r : ℚ)
    (hb : 0 ≤ baseDelay) (hm : 0 ≤ maxDelay) (hj0 : 0 ≤ jitter) (hj1 : jitter ≤ 1)
    (hr0 : 0 ≤ r) (hr1 : r ≤ 1) :
    0 ≤ calculateDelay attempt baseDelay maxDelay jitter r ∧
    |((calculateDelay attempt baseDelay maxDelay jitter r : ℤ) : ℚ)
        - min (baseDelay * 2 ^ (attempt - 1)) maxDelay|
      ≤ jitter * min (baseDelay * 2 ^ (attempt - 1)) maxDelay + 1/2 ∧
    (jitter = 0 → ∀ b m : ℤ, baseDelay = (b : ℚ) → maxDelay = (m : ℚ) →
      ((calculateDelay attempt baseDelay maxDelay jitter r : ℤ) : ℚ)
        = min (baseDelay * 2 ^ (attempt - 1)) maxDelay) := by
  have hcap0 : 0 ≤ min (baseDelay * 2 ^ (attempt - 1)) maxDelay :=
    le_min (mul_nonneg hb (by positivity)) hm
  have hcore := delay_round_core (min (baseDelay * 2 ^ (attempt - 1)) maxDelay)
    jitter r hcap0 hj0 hj1 hr0 hr1
  have hunfold : calculateDelay attempt baseDelay maxDelay jitter r
      = max 0 ⌊min (baseDelay * 2 ^ (attempt - 1)) maxDelay
          + (r * 2 - 1) * (min (baseDelay * 2 ^ (attempt - 1)) maxDelay * jitter)
          + 1/2⌋ := rfl
  refine ⟨?_, ?_, ?_⟩
  · rw [hunfold]; exact hcore.1
  · rw [hunfold]; exact hcore.2
  · intro hjz b m hbe hme
    subst hjz
    subst hbe
    subst hme
    rw [hunfold]
    have hint : ((b : ℚ) * (2:ℚ) ^ (attempt - 1)) = ((b * 2 ^ (attempt - 1) : ℤ) : ℚ) := by
      push_cast
      ring
    rw [hint, ← Int.cast_min, mul_zero, mul_zero, add_zero]
    have hhalf : ⌊(1/2 : ℚ)⌋ = 0 := by
      rw [Int.floor_eq_iff]
      constructor <;> norm_num
    rw [Int.floor_int_add, hhalf, add_zero]
    have hn0 : 0 ≤ min (b * 2 ^ (attempt - 1)) m := by
      refine le_min (mul_nonneg ?_ (by positivity)) ?_
      · exact_mod_cast hb
      · exact_mod_cast hm
    rw [max_eq_right hn0]

/-- Witness for the amended C7 at `attempt = 2`, `baseDelay = 100`,
`maxDelay = 10000`, `jitter = 1/10`, `r = 1/2`. -/
theorem c7_backoff_delay_witness :
    0 ≤ calculateDelay 2 100 10000 (1/10) (1/2) ∧
    |((calculateDelay 2 100 10000 (1/10) (1/2) : ℤ) : ℚ)
        - min ((100:ℚ) * 2 ^ (2 - 1)) 10000|
      ≤ (1/10) * min ((100:ℚ) * 2 ^ (2 - 1)) 10000 + 1/2 ∧
    ((1/10 : ℚ) = 0 → ∀ b m : ℤ, (100:ℚ) = (b : ℚ) → (10000:ℚ) = (m : ℚ) →
      ((calculateDelay 2 100 10000 (1/10) (1/2) : ℤ) : ℚ)
        = min ((100:ℚ) * 2 ^ (2 - 1)) 10000) :=
  c7_backoff_delay 2 100 10000 (1/10) (1/2) (by norm_num) (by norm_num)
    (by norm_num) (by norm_num) (by norm_num) (by norm_num)

/-- Observable outcome of `Retrier.run` (retrier.ts lines 147-212):
the wrapped function resolved (`success`), a non-retryable error was
rethrown (`raised`), or `RetryExhaustedError(attempts, lastError)` was
thrown (`exhausted`). -/
inductive RetryResult (E V : Type) where
  | success (v : V)
  | raised (e : E)
  | exhausted (attempts : Nat) (lastError : E)
deriving Repr, DecidableEq

/-- The retry loop of `Retrier.run` with no cancellation signal.
`outc i` is the outcome of attempt `i` (1-indexed): a resolved value or the
thrown error; `isRetryable` is the caller-supplied predicate.  `fuel` counts
the remaining loop iterations (`maxAttempts - attempt`), so `fuel = 0` means
the current attempt is the last one and a retryable failure falls through to
`RetryExhaustedError`.  Returns the result together with the index of the
last attempt executed and the number of backoff sleeps performed. -/
def runA {E V : Type} (isRetryable : E → Bool) (maxAttempts : Nat)
    (outc : Nat → Except E V) : Nat → Nat → Nat → RetryResult E V × Nat × Nat
  | 0, attempt, sleeps =>
    (match outc attempt with
     | .ok v => (.success v, attempt, sleeps)
     | .error e =>
       if isRetryable e = false then (.raised e, attempt, sleeps)
       else (.exhausted maxAttempts e, attempt, sleeps))
  | fuel + 1, attempt, sleeps =>
    (match outc attempt with
     | .ok v => (.success v, attempt, sleeps)
     | .error e =>
       if isRetryable e = false then (.raised e, attempt, sleeps)
       else if maxAttempts ≤ attempt then (.exhausted maxAttempts e, attempt, sleeps)
       else runA isRetryable maxAttempts outc fuel (attempt + 1) (sleeps + 1))

/-- Entry point `Retrier.run(fn)` with no cancellation: start at attempt 1 with
`maxAttempts - 1` retries remaining and no sleeps yet. -/
def retrierRun {E V : Type} (isRetryable : E → Bool) (maxAttempts : Nat)
    (outc : Nat → Except E V) : RetryResult E V × Nat × Nat :=
  runA isRetryable maxAttempts outc (maxAttempts - 1) 1 0

/-- If every attempt before `k` fails retryably and attempt `k` fails with a
non-retryable error, the loop rethrows that error at attempt `k` after
exactly `k - attempt` additional sleeps. -/
theorem runA_raised {E V : Type} (isR : E → Bool) (maxA : Nat)
    (outc : Nat → Except E V) (k : Nat) (ek : E) (hkm : k ≤ maxA)
    (hat : outc k = Except.error ek) (hek : isR ek = false) :
    ∀ (fuel attempt sleeps : Nat), attempt ≤ k → k ≤ attempt + fuel →
      (∀ i, attempt ≤ i → i < k → ∃ e, outc i = Except.error e ∧ isR e = true) →
      runA isR maxA outc fuel attempt sleeps
        = (.raised ek, k, sleeps + (k - attempt)) := by
  intro fuel
  induction fuel with
  | zero =>
    intro attempt sleeps h1 h2 hbef
    have hak : attempt = k := by omega
    subst hak
    simp [runA, hat, hek]
  | succ f ih =>
    intro attempt sleeps h1 h2 hbef
    by_cases hak : attempt = k
    · subst hak
      simp [runA, hat, hek]
    · have hlt : attempt < k := by omega
      obtain ⟨e, he, hre⟩ := hbef attempt le_rfl hlt
      have harith : sleeps + 1 + (k - (attempt + 1)) = sleeps + (k - attempt) := by omega
      simp only [runA]
      rw [he]
      simp only [hre]
      rw [if_neg (by decide), if_neg (by omega : ¬ maxA ≤ attempt)]
      rw [ih (attempt + 1) (sleeps + 1) (by omega) (by omega)
        (fun i hi1 hi2 => hbef i (by omega) hi2), harith]
  
/-- If every attempt up to `maxAttempts` fails retryably, the loop ends in
`RetryExhaustedError(maxAttempts, lastError)` where `lastError` is the final
attempt's error, with one sleep per non-final attempt. -/
theorem runA_exhausted {E V : Type} (isR : E → Bool) (maxA : Nat)
    (outc : Nat → Except E V) :
    ∀ (fuel attempt sleeps : Nat), attempt + fuel = maxA → 1 ≤ attempt →
      (∀ i, attempt ≤ i → i ≤ maxA → ∃ e, outc i = Except.error e ∧ isR e = true) →
      ∃ e, outc maxA = Except.error e ∧
        runA isR maxA outc fuel attempt sleeps
          = (.exhausted maxA e, attempt + fuel, sleeps + fuel) := by
  intro fuel
  induction fuel with
  | zero =>
    intro attempt sleeps hfa h1 hall
    have hak : attempt = maxA := by omega
    subst hak
    obtain ⟨e, he, hre⟩ := hall attempt le_rfl le_rfl
    refine ⟨e, he, ?_⟩
    simp [runA, he, hre]
  | succ f ih =>
    intro attempt sleeps hfa h1 hall
    obtain ⟨e, he, hre⟩ := hall attempt le_rfl (by omega)
    obtain ⟨e2, he2, hrun⟩ := ih (attempt + 1) (sleeps + 1) (by omega) (by omega)
      (fun i hi1 hi2 => hall i (by omega) hi2)
    refine ⟨e2, he2, ?_⟩
    simp only [runA]
    rw [he]
    simp only [hre]
    rw [if_neg (by decide), if_neg (by omega : ¬ maxA ≤ attempt)]
    rw [hrun]
    have h3 : attempt + 1 + f = attempt + (f + 1) := by omega
    have h4 : sleeps + 1 + f = sleeps + (f + 1) := by omega
    rw [h3, h4]

/-- Claim C8: in a `Retrier.run` call with no cancellation, (a) if the first
`k-1` attempts fail with retryable errors and attempt `k` throws an error the
`isRetryable` predicate rejects, that error is rethrown immediately — the
result is `raised`, attempt `k` is the last executed, and only `k - 1`
backoff sleeps happened (none after attempt `k`); (b) if all `maxAttempts`
attempts throw retryable errors, the run fails with
`RetryExhaustedError` whose `attempts` field is `maxAttempts` and whose
`lastError` is the final attempt's error. -/
theorem c8_retry_control_flow {E V : Type} (isR : E → Bool) (maxA : Nat)
    (outc : Nat → Except E V) (hm : 1 ≤ maxA) :
    (∀ k ek, 1 ≤ k → k ≤ maxA →
      (∀ i, 1 ≤ i → i < k → ∃ e, outc i = Except.error e ∧ isR e = true) →
      outc k = Except.error ek → isR ek = false →
      retrierRun isR maxA outc = (.raised ek, k, k - 1)) ∧
    ((∀ i, 1 ≤ i → i ≤ maxA → ∃ e, outc i = Except.error e ∧ isR e = true) →
      ∃ e, outc maxA = Except.error e ∧
        retrierRun isR maxA outc = (.exhausted maxA e, maxA, maxA - 1)) := by
  constructor
  · intro k ek hk1 hkm hbef hat hek
    have hr := runA_raised isR maxA outc k ek hkm hat hek (maxA - 1) 1 0 hk1
      (by omega) (fun i h1 h2 => hbef i h1 h2)
    have harith : 0 + (k - 1) = k - 1 := by omega
    rw [retrierRun, hr, harith]
  · intro hall
    obtain ⟨e, he, hrun⟩ := runA_exhausted isR maxA outc (maxA - 1) 1 0
      (by omega) le_rfl hall
    refine ⟨e, he, ?_⟩
    have h3 : 1 + (maxA - 1) = maxA := by omega
    have h4 : 0 + (maxA - 1) = maxA - 1 := by omega
    rw [retrierRun, hrun, h3, h4]

/-- Witness for C8: `maxAttempts = 3`, attempt 1 fails retryably (error 1),
attempt 2 throws error 7 which `isRetryable` rejects; the run rethrows 7 at
attempt 2 after a single backoff sleep. -/
theorem c8_retry_control_flow_witness :
    retrierRun (fun e => decide (e < 5)) 3
      (fun i => (Except.error (if i = 2 then 7 else 1) : Except Nat Nat))
      = (.raised 7, 2, 1) :=
  (c8_retry_control_flow (fun e => decide (e < 5)) 3
    (fun i => (Except.error (if i = 2 then 7 else 1) : Except Nat Nat)) (by decide)).1
    2 7 (by decide) (by decide)
    (by
      intro i h1 h2
      have hi : i = 1 := by omega
      subst hi
      exact ⟨1, rfl, by decide⟩)
    rfl (by decide)

end Retrier
